import Mathlib

/-!
Shallow embedding of the WfExS-backend workflow materialization pipeline
(`wfexs_backend/workflow.py` and `wfexs_backend/docker_container.py`).

Stateful code (filesystem, subprocess calls, network fetches) is embedded as
explicit state passing: the filesystem is the set of existing paths, and every
external effect (git subprocess, scheme-handler invocation, packaging-archive
download) is recorded as an event in a trace, so that "no re-clone" or "no
second handler call" become statements about the trace.  The SHA-1 hex digest
is passed in as an opaque function argument `h : String → String`: no claim
depends on the value of a digest, only on it being a function of its input.
-/

namespace WfExS

/-- Python `s.split(sep)` for a one-character separator, on the character
list: splitting the empty string yields `[[]]`, adjacent separators yield
empty pieces. -/
def pySplitAux (sep : Char) : List Char → List (List Char)
  | [] => [[]]
  | c :: cs =>
    if c = sep then [] :: pySplitAux sep cs
    else
      match pySplitAux sep cs with
      | [] => [[c]]
      | p :: ps => (c :: p) :: ps

/-- Python `s.split(sep)` for a one-character separator. -/
def pySplit (sep : Char) (s : String) : List String :=
  (pySplitAux sep s.toList).map String.mk

/-- Python `sep.join(xs)`. -/
def pyJoin (sep : String) : List String → String
  | [] => ""
  | [x] => x
  | x :: rest => x ++ sep ++ pyJoin sep rest

/-- Python `s.endswith(post)`. -/
def strEndsWith (s post : String) : Bool :=
  List.isSuffixOf post.toList s.toList

/-- Python `s.startswith(pre)`. -/
def strStartsWith (s pre : String) : Bool :=
  List.isPrefixOf pre.toList s.toList

/-- Python `s.lower()` for ASCII strings. -/
def lowerStr (s : String) : String :=
  String.mk (s.toList.map Char.toLower)

/-- Python string `<`: lexicographic comparison by code point. -/
def pyStrLtAux : List Char → List Char → Bool
  | [], [] => false
  | [], _ :: _ => true
  | _ :: _, [] => false
  | a :: as, b :: bs =>
    if a.toNat < b.toNat then true
    else if a.toNat = b.toNat then pyStrLtAux as bs
    else false

/-- Python string `<` on strings. -/
def pyStrLt (a b : String) : Bool :=
  pyStrLtAux a.toList b.toList

/-- Character set allowed in a URL scheme after the first character,
per `urllib.parse` (`scheme_chars`). -/
def isSchemeChar (c : Char) : Bool :=
  c.isAlpha || c.isDigit || c = '+' || c = '-' || c = '.'

/-- Split a character list at the first occurrence of `sep`; `none` when
`sep` does not occur. -/
def splitFirst (sep : Char) : List Char → Option (List Char × List Char)
  | [] => none
  | c :: cs =>
    if c = sep then some ([], cs)
    else (splitFirst sep cs).map (fun p => (c :: p.1, p.2))

/-- Result of `urllib.parse.urlparse`: the three components the code under
verification reads (`scheme`, `netloc`, `path`).  Params, query and fragment
are never inspected by `workflow.py`, and the URLs the claims range over
carry none, so they are not modelled. -/
structure ParsedURL where
  scheme : String
  netloc : String
  path : String
  deriving Repr, DecidableEq

/-- `urllib.parse.urlparse`, restricted to URLs without `?`/`#`/`;` parts:
a leading `scheme:` is recognized when the prefix before the first `:` is a
non-empty run of scheme characters starting with a letter (and is lowercased,
as `urlparse` does); a following `//netloc` extends to the next `/`; the rest
is the path. -/
def urlparse (s : String) : ParsedURL :=
  let cs := s.toList
  let (scheme, rest) :=
    match splitFirst ':' cs with
    | some (before, after) =>
      if before ≠ [] ∧ (before.headD 'a').isAlpha ∧ before.all isSchemeChar then
        (before.map Char.toLower, after)
      else ([], cs)
    | none => ([], cs)
  let (netloc, path) :=
    match rest with
    | '/' :: '/' :: rest2 =>
      (rest2.takeWhile (fun c => c ≠ '/'), rest2.dropWhile (fun c => c ≠ '/'))
    | _ => ([], rest)
  ⟨String.mk scheme, String.mk netloc, String.mk path⟩

/-- `os.path.join(a, b)` for the shapes the code builds: `a` is a directory
path without trailing slash and `b` a relative name. -/
def pathJoin (a b : String) : String := a ++ "/" ++ b

/-- `MaterializedContent` named tuple: `(local, uri, prettyFilename)`, the
three fields `workflow.py` constructs and reads (spec §3: localPath,
sourceURI, displayName).  The first field is called `local` in the source;
`local` is a Lean keyword, so it is spelled `localFile` here. -/
structure MaterializedContent where
  localFile : String
  uri : String
  prettyFilename : String
  deriving Repr, DecidableEq

/-- `urllib.parse.urlunparse((scheme, netloc, path, '', '', ''))` for empty
params, query and fragment, as built in `getWorkflowRepoFromROCrate`. -/
def urlunparse (scheme netloc path : String) : String :=
  let url := if netloc ≠ "" ∨ strStartsWith path "//" then "//" ++ netloc ++ path else path
  if scheme ≠ "" then scheme ++ ":" ++ url else url

/-- The error cases raised as `WFException` (plus the uncaught Python
exceptions the code can hit), with the data interpolated into the message. -/
inductive WFErr where
  | unableToPull (repoURL : String) (repoTag : Option String)
  | cannotGuessRepo
  | versionNotFound (version_id : String)
  | noValidVersion
  | descriptorTypeKeyError
  | descriptorTypeNotAvailable (dt : String)
  | descriptorTypeNotAcknowledged (dt : String)
  | noAcknowledgedDescriptorType
  | invalidRemoteURL (remote_file : String)
  | noSchemeHandler (scheme : String) (remote_file : String)
  | noSecurityContext (contextName : String) (remote_file : String)
  | unrecognizedInputClass (cls : String)
  | fileExists (path : String)
  deriving Repr, DecidableEq

/-- `repoGitPath[-1] += '.git'` guarded by `endswith('.git')`: append the
suffix to the last element of the list unless it is already there
(`getWorkflowRepoFromROCrate`, lines 604-605). -/
def addGitSuffix : List String → List String
  | [] => []
  | [x] => [if strEndsWith x ".git" then x else x ++ ".git"]
  | x :: rest => x :: addGitSuffix rest

/-- The repository-guessing tail of `WF.getWorkflowRepoFromROCrate`
(lines 595-618), operating on the already-parsed workflow URL
`parsed_wf_url`.  Returns the triple `(repoURL, repoTag, repoRelPath)`,
each optional exactly as the Python locals start as `None`. -/
def guessRepoFromParsed (parsed : ParsedURL) :
    Except WFErr (Option String × Option String × Option String) :=
  if parsed.netloc = "github.com" then
    let wf_path := pySplit '/' parsed.path
    if wf_path.length ≥ 3 then
      let repoGitPath := addGitSuffix (wf_path.take 3)
      let repoURL := urlunparse parsed.scheme parsed.netloc
        (pyJoin "/" repoGitPath)
      let tagRel :=
        if wf_path.length ≥ 5 ∧ wf_path.getD 3 "" = "blob" then
          (some (wf_path.getD 4 ""),
           if wf_path.length ≥ 6 then
             some (pyJoin "/" (wf_path.drop 5))
           else none)
        else (none, none)
      .ok (some repoURL, tagRel.1, tagRel.2)
    else
      -- short path on a recognized host: repoURL/repoTag/repoRelPath all
      -- remain None and the function returns without raising
      .ok (none, none, none)
  else
    .error .cannotGuessRepo

/-- `WF.getWorkflowRepoFromROCrate`, repository-guessing part, from the raw
`isBasedOn` URL string. -/
def guessRepoParams (wf_url : String) :
    Except WFErr (Option String × Option String × Option String) :=
  guessRepoFromParsed (urlparse wf_url)

/-- One entry of the tool manifest's `versions` list, with the two fields
`getWorkflowRepoFromTRS` reads: `id` (absent key modelled as `none`, the
source reads it through `.get('id', '')` after `str()` coercion) and
`descriptor_type` (absent key modelled as `none`; when present the source
checks it is a list). -/
structure ToolVersion where
  id : Option String
  descriptor_type : Option (List String)
  deriving Repr, DecidableEq

/-- The version-selection loop of `WF.getWorkflowRepoFromTRS`
(lines 499-522).  With a non-empty `version_id` the first manifest version
whose `id` string-equals it is chosen, else a fatal version-not-found error;
with an empty `version_id` the loop keeps the entry with the
lexicographically largest non-empty `id` (strict `<`, so the first of equal
ids wins), and failing to find any is a fatal no-valid-version error.
Returns the chosen version together with `toolVersionId`.  The body of the
latest-version loop (lines 513-517) is named `versionMaxStep`. -/
def versionMaxStep (acc : Option ToolVersion × String) (v : ToolVersion) :
    Option ToolVersion × String :=
  let possibleToolVersionId := v.id.getD ""
  if possibleToolVersionId.length > 0 ∧ pyStrLt acc.2 possibleToolVersionId
  then (some v, possibleToolVersionId)
  else acc

/-- The version-selection control flow of `WF.getWorkflowRepoFromTRS`
(lines 499-522), combining the exact-match loop and the
`versionMaxStep` fold. -/
def selectToolVersion (version_id : String) (versions : List ToolVersion) :
    Except WFErr (ToolVersion × String) :=
  if version_id.length > 0 then
    match versions.find? (fun v => v.id.getD "" = version_id) with
    | some v => .ok (v, version_id)
    | none => .error (.versionNotFound version_id)
  else
    let chosen := versions.foldl versionMaxStep
      ((none : Option ToolVersion), "")
    match chosen.1 with
    | some v => .ok (v, chosen.2)
    | none => .error .noValidVersion

/-- The descriptor-type resolution of `WF.getWorkflowRepoFromTRS`
(lines 525-549).  `recognizedKeys` is
`RECOGNIZED_TRS_DESCRIPTORS.keys()` in iteration order;
`self_descriptor_type` is the caller's `descriptor_type`.  When the caller
pinned a type, it must be listed by the manifest version (the source
re-indexes `toolVersion['descriptor_type']` here, so an absent key is an
uncaught `KeyError`, modelled as `descriptorTypeKeyError`) and be among the
recognized keys; when unset, the first recognized key the version lists is
chosen. -/
def chooseDescriptorType (recognizedKeys : List String)
    (self_descriptor_type : Option String) (tv : ToolVersion) :
    Except WFErr String :=
  let toolDescriptorTypes := tv.descriptor_type.getD []
  match self_descriptor_type with
  | none =>
    match recognizedKeys.find? (fun k => toolDescriptorTypes.contains k) with
    | some k => .ok k
    | none => .error .noAcknowledgedDescriptorType
  | some dt =>
    match tv.descriptor_type with
    | none => .error .descriptorTypeKeyError
    | some listed =>
      if ¬ listed.contains dt then .error (.descriptorTypeNotAvailable dt)
      else if ¬ recognizedKeys.contains dt then
        .error (.descriptorTypeNotAcknowledged dt)
      else .ok dt

/-- Network events of the TRS resolution path that follow the initial
registry `GET` (which produced the `versions` argument). -/
inductive NetEvent where
  | fetchPackagingArchive (roCrateURL : String)
  deriving Repr, DecidableEq

/-- The tail of `WF.getWorkflowRepoFromTRS` after the registry manifest has
been fetched and decoded: version selection, descriptor-type resolution,
construction of the packaging-archive (RO-Crate) URL and the hand-off to
`getWorkflowRepoFromROCrate`, whose first action is to download that URL
(`downloadROcrate`).  The download is recorded as a `NetEvent`; the event
list is returned alongside the outcome so that "no download happened" is a
statement about the first component.  URL quoting of id/type (`parse.quote`)
is not modelled; it does not affect which events occur. -/
def getWorkflowRepoFromTRSTail (recognizedKeys : List String)
    (self_descriptor_type : Option String) (version_id : String)
    (trs_tool_url : String) (versions : List ToolVersion) :
    List NetEvent × Except WFErr String :=
  match selectToolVersion version_id versions with
  | .error e => ([], .error e)
  | .ok (tv, toolVersionId) =>
    match chooseDescriptorType recognizedKeys self_descriptor_type tv with
    | .error e => ([], .error e)
    | .ok chosen =>
      let roCrateURL := trs_tool_url ++ "/versions/" ++ toolVersionId ++ "/"
        ++ chosen ++ "/files?format=zip"
      ([.fetchPackagingArchive roCrateURL], .ok chosen)

/-! ### Content-addressed repository cache (`WF.doMaterializeRepo`) -/

/-- External git subprocess invocations, recorded as trace events. -/
inductive GitEvent where
  | clone (repoURL : String) (dest : String) (noCheckout : Bool)
  | checkout (repoTag : String) (dir : String)
  | submoduleUpdate (dir : String)
  | revparse (dir : String)
  deriving Repr, DecidableEq

/-- Environment for the git pipeline: `cloneHead url tag = some commit`
means the clone / checkout / submodule-update sequence for `(url, tag)` all
exit 0 and leave `commit` checked out at HEAD; `none` means some step
returns non-zero.  Deterministic over one verification run (git resolves a
fixed `(url, tag)` to a fixed commit). -/
structure GitEnv where
  cloneHead : String → Option String → Option String

/-- Filesystem-and-trace state for `doMaterializeRepo`: the set of existing
paths, the HEAD commit `git rev-parse` would report per repository
directory, and the subprocess trace (newest first). -/
structure RepoState where
  fs : List String
  headAt : List (String × String)
  events : List GitEvent
  deriving Repr, DecidableEq

/-- The create-if-missing idiom of lines 389-394 on the repo cache state. -/
def ensureRepoDir (st : RepoState) (d : String) : RepoState :=
  if d ∈ st.fs then st else { st with fs := d :: st.fs }

/-- `WF.doMaterializeRepo` (lines 377-456).  `h` is the SHA-1 hex digest.
Slot path: `cacheWorkflowDir/h(url)/h(tag or '')`.  A missing slot runs the
clone pipeline (clone `-n` plus explicit checkout when a tag is given, plain
clone otherwise, then `submodule update --init`); an existing slot is
trusted as-is.  Either way `git rev-parse --verify HEAD` then reads the
effective checkout of whatever tree sits in the slot (`getD ""` stands for
rev-parse output on a directory no clone of this model populated).  On a
failed pipeline the raised `WFException` is returned and the trace of the
partial attempt is not tracked (no claim concerns it). -/
def doMaterializeRepo (h : String → String) (cacheWorkflowDir : String)
    (env : GitEnv) (st : RepoState) (repoURL : String)
    (repoTag : Option String) : Except WFErr (RepoState × String × String) :=
  let repo_hashed_id := h repoURL
  let repo_hashed_tag_id := h (repoTag.getD "")
  let repo_destdir := pathJoin cacheWorkflowDir repo_hashed_id
  let st0 := ensureRepoDir st repo_destdir
  let repo_tag_destdir := pathJoin repo_destdir repo_hashed_tag_id
  let cloned : Except WFErr RepoState :=
    if repo_tag_destdir ∈ st0.fs then .ok st0
    else
      match env.cloneHead repoURL repoTag with
      | some commit =>
        let evs := match repoTag with
          | some tag =>
            [GitEvent.submoduleUpdate repo_tag_destdir,
             GitEvent.checkout tag repo_tag_destdir,
             GitEvent.clone repoURL repo_tag_destdir true]
          | none =>
            [GitEvent.submoduleUpdate repo_tag_destdir,
             GitEvent.clone repoURL repo_tag_destdir false]
        .ok { fs := repo_tag_destdir :: st0.fs,
              headAt := (repo_tag_destdir, commit) :: st0.headAt,
              events := evs ++ st0.events }
      | none => .error (.unableToPull repoURL repoTag)
  match cloned with
  | .error e => .error e
  | .ok st1 =>
    let repo_effective_checkout := (st1.headAt.lookup repo_tag_destdir).getD ""
    .ok ({ st1 with events := GitEvent.revparse repo_tag_destdir :: st1.events },
         repo_tag_destdir, repo_effective_checkout)

/-! ### Remote object fetch and cache (`WF.downloadInputFile`) -/

/-- Filesystem-and-trace state for input fetching: existing paths, and the
scheme-handler invocations `(remote_file, cachedFilename)` (newest first). -/
structure FetchState where
  fs : List String
  handlerCalls : List (String × String)
  deriving Repr, DecidableEq

/-- The parts of `WF` that `downloadInputFile`/`fetchInputs` read:
the shared input cache directory, the registered scheme-handler keys
(lowercased schemes), and the credentials configuration. -/
structure FetchConfig where
  cacheWorkflowInputsDir : String
  schemeHandlers : List String
  creds_config : List (String × String)
  deriving Repr, DecidableEq

/-- The `if not os.path.exists(d): os.makedirs(d)` idiom (lines 669-674):
create the directory when missing, leave the filesystem untouched
otherwise. -/
def ensureDir (st : FetchState) (d : String) : FetchState :=
  if d ∈ st.fs then st else { st with fs := d :: st.fs }

/-- `WF.downloadInputFile` (lines 645-696).  `h` is the SHA-1 hex digest.
Validates the URL has scheme, netloc and path; creates the destination
directory (defaulting to the shared input cache) when missing; the cache
file lives at `cacheWorkflowInputsDir/h(uri)` regardless of the destination
argument.  On a cache miss the handler for the lowercased scheme is looked
up (fatal when unregistered), then the security context is resolved (fatal
when the name is unknown), then the handler is invoked and writes the cache
file (a successful handler is modelled; no claim concerns handler
failures).  The state is returned also on error, carrying the effects
performed up to the raise. -/
def downloadInputFile (h : String → String) (cfg : FetchConfig)
    (st : FetchState) (remote_file : String)
    (workflowInputs_destdir : Option String) (contextName : Option String) :
    FetchState × Except WFErr MaterializedContent :=
  let parsedInputURL := urlparse remote_file
  if ¬ (parsedInputURL.scheme ≠ "" ∧ parsedInputURL.netloc ≠ "" ∧
        parsedInputURL.path ≠ "") then
    (st, .error (.invalidRemoteURL remote_file))
  else
    let input_file := h remote_file
    let prettyFilename := (pySplit '/' parsedInputURL.path).getLastD ""
    let destdir := workflowInputs_destdir.getD cfg.cacheWorkflowInputsDir
    let st0 := ensureDir st destdir
    let cachedFilename := pathJoin cfg.cacheWorkflowInputsDir input_file
    if cachedFilename ∈ st0.fs then
      (st0, .ok ⟨cachedFilename, remote_file, prettyFilename⟩)
    else
      let theScheme := lowerStr parsedInputURL.scheme
      if ¬ cfg.schemeHandlers.contains theScheme then
        (st0, .error (.noSchemeHandler theScheme remote_file))
      else if contextName.isSome ∧
          (cfg.creds_config.lookup (contextName.getD "")).isNone then
        (st0, .error (.noSecurityContext (contextName.getD "") remote_file))
      else
        ({ fs := cachedFilename :: st0.fs,
           handlerCalls := (remote_file, cachedFilename) :: st0.handlerCalls },
         .ok ⟨cachedFilename, remote_file, prettyFilename⟩)

/-! ### Input materialization walk (`WF.fetchInputs`) -/

/-- The `url` field of a File-classed node: the source wraps a non-list
value into a singleton list (lines 336-338). -/
inductive UrlField where
  | one (u : String)
  | many (us : List String)
  deriving Repr, DecidableEq

/-- A node of the untyped params tree, as `fetchInputs` discriminates it:
a non-dict scalar, a non-dict list (both opaque to the walk, so their
values are modelled as strings), a dict whose `c-l-a-s-s` lookup returned a
value (together with the `url` and `security-context` fields the File
branch reads), or a dict without one (a nesting level).  The walk only
iterates dicts below the top level (a list at a nesting position is a leaf
by the `isinstance(inputs, list)` test), so children are keyed entries in
insertion order. -/
inductive PNode where
  | scalar (v : String)
  | plainList (vs : List String)
  | classed (cls : String) (url : UrlField) (secCtx : Option String)
  | nested (children : List (String × PNode))
  deriving Repr

/-- The `values` of a `MaterializedInput`: remote pairs for a File node,
the raw scalar(s) otherwise. -/
inductive MatValues where
  | files (cs : List MaterializedContent)
  | plain (vs : List String)
  deriving Repr, DecidableEq

/-- `MaterializedInput` named tuple `(name, values)`. -/
structure MaterializedInput where
  name : String
  values : MatValues
  deriving Repr, DecidableEq

/-- The per-remote-file loop of the File branch of `WF.fetchInputs`
(lines 341-358): download into the cache (the cache directory is passed as
`downloadInputFile`'s destination argument, line 346), increment
`lastInput`, link the cached file into `destdir` under the display name, or
under `str(lastInput) + '_' + name` when that name already exists
(lines 350-356); `os.symlink` onto a still-existing path raises an uncaught
`FileExistsError`, modelled as `fileExists`. -/
def stageRemoteFiles (h : String → String) (cfg : FetchConfig)
    (destdir cachedir : String) (contextName : Option String) :
    FetchState → Nat → List String →
    FetchState × Except WFErr (List MaterializedContent × Nat)
  | st, lastInput, [] => (st, .ok ([], lastInput))
  | st, lastInput, remote_file :: rest =>
    match downloadInputFile h cfg st remote_file (some cachedir) contextName with
    | (st1, .error e) => (st1, .error e)
    | (st1, .ok matContent) =>
      let lastInput1 := lastInput + 1
      let pretty := pathJoin destdir matContent.prettyFilename
      let prettyLocal :=
        if pretty ∈ st1.fs then
          pathJoin destdir (toString lastInput1 ++ "_" ++ matContent.prettyFilename)
        else pretty
      if prettyLocal ∈ st1.fs then (st1, .error (.fileExists prettyLocal))
      else
        match stageRemoteFiles h cfg destdir cachedir contextName
            { st1 with fs := prettyLocal :: st1.fs } lastInput1 rest with
        | (st2, .error e) => (st2, .error e)
        | (st2, .ok (pairs, n)) =>
          (st2, .ok (⟨prettyLocal, matContent.uri, matContent.prettyFilename⟩
                       :: pairs, n))

mutual

/-- One `(key, inputs)` iteration of the loop body of `WF.fetchInputs`
(lines 329-370), at accumulated key `linearKey`. -/
def fetchInputsEntry (h : String → String) (cfg : FetchConfig)
    (destdir cachedir : String) (st : FetchState) (linearKey : String)
    (node : PNode) (lastInput : Nat) :
    FetchState × Except WFErr (List MaterializedInput × Nat) :=
  match node with
  | .scalar v => (st, .ok ([⟨linearKey, .plain [v]⟩], lastInput))
  | .plainList vs => (st, .ok ([⟨linearKey, .plain vs⟩], lastInput))
  | .classed cls url secCtx =>
    if cls = "File" then
      let remote_files := match url with | .one u => [u] | .many us => us
      match stageRemoteFiles h cfg destdir cachedir secCtx st lastInput
          remote_files with
      | (st1, .error e) => (st1, .error e)
      | (st1, .ok (remote_pairs, n)) =>
        (st1, .ok ([⟨linearKey, .files remote_pairs⟩], n))
    else (st, .error (.unrecognizedInputClass cls))
  | .nested children =>
    fetchInputsList h cfg destdir cachedir st children (linearKey ++ ".")
      lastInput

/-- `WF.fetchInputs` (lines 315-372) over a dict's items: threads the
filesystem state and the `lastInput` counter left to right, extending the
result list, short-circuiting on the first raised exception. -/
def fetchInputsList (h : String → String) (cfg : FetchConfig)
    (destdir cachedir : String) (st : FetchState)
    (params : List (String × PNode)) (keyPrefix : String) (lastInput : Nat) :
    FetchState × Except WFErr (List MaterializedInput × Nat) :=
  match params with
  | [] => (st, .ok ([], lastInput))
  | (key, node) :: rest =>
    match fetchInputsEntry h cfg destdir cachedir st (keyPrefix ++ key) node
        lastInput with
    | (st1, .error e) => (st1, .error e)
    | (st1, .ok (outs, n1)) =>
      match fetchInputsList h cfg destdir cachedir st1 rest keyPrefix n1 with
      | (st2, .error e) => (st2, .error e)
      | (st2, .ok (outs2, n2)) => (st2, .ok (outs ++ outs2, n2))

end

mutual

/-- Number of remote files a node's walk fetches when it succeeds: one per
URL of each File node. -/
def numFilesNode : PNode → Nat
  | .scalar _ => 0
  | .plainList _ => 0
  | .classed _ url _ => match url with | .one _ => 1 | .many us => us.length
  | .nested children => numFilesList children

/-- Number of remote files fetched across a list of entries. -/
def numFilesList : List (String × PNode) → Nat
  | [] => 0
  | (_, node) :: rest => numFilesNode node + numFilesList rest

end

/-! ### Docker container materialization
(`DockerContainerFactory.materializeContainers`) -/

/-- Container kinds (`common.py`); only `Docker` is produced here. -/
inductive ContainerType where
  | Docker
  deriving Repr, DecidableEq

/-- The `Container` named tuple as constructed at
`docker_container.py` lines 134-142. -/
structure Container where
  origTaggedName : String
  taggedName : String
  signature : String
  fingerprint : Option String
  type : ContainerType
  deriving Repr, DecidableEq

/-- One element of the JSON array `docker inspect` prints, restricted to
the two fields the code reads (`Id`, `RepoDigests`). -/
structure DockerManifest where
  Id : String
  RepoDigests : List String
  deriving Repr, DecidableEq

/-- Environment for the docker subprocesses.  `inspect1 tag = some ms`
means the first `docker inspect tag` exits 0 and its stdout parses as the
manifest array `ms`; `none` means a non-zero exit.  `pullOk` is the exit
status of `docker pull`, and `inspect2` the inspect retried after a
successful pull. -/
structure DockerEnv where
  inspect1 : String → Option (List DockerManifest)
  pullOk : String → Bool
  inspect2 : String → Option (List DockerManifest)

/-- Errors raised as `ContainerFactoryException`. -/
inductive ContainerErr where
  | materializeFailed (dockerTag : String)
  | parseFailed (tag : String)
  deriving Repr, DecidableEq

/-- `tag[len(DOCKER_PROTO):] if tag.startswith(DOCKER_PROTO) else tag`
(line 95); `DOCKER_PROTO = 'docker://'` is 9 characters. -/
def stripDockerProto (tag : String) : String :=
  if strStartsWith tag "docker://" then tag.drop 9 else tag

/-- The inspect-pull-inspect sequence of lines 98-105: the first inspect's
manifest when it succeeds, else the post-pull inspect when the pull
succeeds, else failure. -/
def effectiveInspect (env : DockerEnv) (dockerTag : String) :
    Option (List DockerManifest) :=
  match env.inspect1 dockerTag with
  | some ms => some ms
  | none => if env.pullOk dockerTag then env.inspect2 dockerTag else none

/-- The loop body of `DockerContainerFactory.materializeContainers`
(lines 93-142) for one tag: strip the `docker://` prefix, inspect (pulling
once on failure), raise when still failing, take `manifests[0]` (an empty
array is an `IndexError` caught by the `except` and re-raised as a parse
failure), and build the `Container` with `signature = manifest['Id']` and
`fingerprint = manifest['RepoDigests'][0]` when that list is non-empty,
`None` otherwise. -/
def materializeOneContainer (env : DockerEnv) (tag : String) :
    Except ContainerErr Container :=
  let dockerTag := stripDockerProto tag
  match effectiveInspect env dockerTag with
  | none => .error (.materializeFailed dockerTag)
  | some manifests =>
    match manifests with
    | [] => .error (.parseFailed tag)
    | manifest :: _ =>
      let fingerprint :=
        if manifest.RepoDigests.length > 0 then manifest.RepoDigests.head?
        else none
      .ok ⟨tag, dockerTag, manifest.Id, fingerprint, ContainerType.Docker⟩

/-- `DockerContainerFactory.materializeContainers` (lines 85-144): the
for-loop appends one `Container` per input tag in order, an exception
aborting the whole call. -/
def materializeContainers (env : DockerEnv) (tagList : List String) :
    Except ContainerErr (List Container) :=
  tagList.mapM (materializeOneContainer env)

/-! ## Theorems -/

/-! ### Order facts about the Python string comparison -/

theorem pyStrLtAux_irrefl (l : List Char) : pyStrLtAux l l = false := by
  induction l with
  | nil => rfl
  | cons a as ih => simp [pyStrLtAux, ih]

theorem pyStrLtAux_nil_right (l : List Char) : pyStrLtAux l [] = false := by
  cases l <;> rfl

theorem pyStrLtAux_trans {a b c : List Char} (hab : pyStrLtAux a b = true)
    (hbc : pyStrLtAux b c = true) : pyStrLtAux a c = true := by
  induction a generalizing b c with
  | nil =>
    cases c with
    | nil => cases b <;> simp [pyStrLtAux, pyStrLtAux_nil_right] at hab hbc
    | cons z zs => rfl
  | cons x xs ih =>
    cases b with
    | nil => simp [pyStrLtAux] at hab
    | cons y ys =>
      cases c with
      | nil => simp [pyStrLtAux] at hbc
      | cons z zs =>
        simp only [pyStrLtAux] at hab hbc ⊢
        by_cases h1 : x.toNat < y.toNat <;> by_cases h2 : y.toNat < z.toNat <;>
          by_cases h3 : x.toNat = y.toNat <;>
          by_cases h4 : y.toNat = z.toNat <;>
          simp [h1, h2, h3, h4] at hab hbc ⊢ <;>
          first
          | omega
          | (exact ih hab hbc)

theorem pyStrLt_irrefl (s : String) : pyStrLt s s = false :=
  pyStrLtAux_irrefl s.toList

theorem pyStrLt_empty_right (s : String) : pyStrLt s "" = false :=
  pyStrLtAux_nil_right s.toList

theorem pyStrLt_trans {a b c : String} (hab : pyStrLt a b = true)
    (hbc : pyStrLt b c = true) : pyStrLt a c = true :=
  pyStrLtAux_trans hab hbc

theorem pyStrLt_pos {a b : String} (hab : pyStrLt a b = true) :
    0 < b.length := by
  cases hb : b.toList with
  | nil =>
    rw [pyStrLt, hb, pyStrLtAux_nil_right] at hab
    exact absurd hab (by simp)
  | cons c cs =>
    have : b.length = b.toList.length := rfl
    rw [this, hb]
    simp

theorem strLength_zero_iff (s : String) : s.length = 0 ↔ s = "" := by
  constructor
  · intro hl
    cases s with
    | mk data =>
      cases data with
      | nil => rfl
      | cons c cs => simp at hl
  · intro hs
    subst hs
    rfl

theorem pyStrLt_empty_left {b : String} (hb : 0 < b.length) :
    pyStrLt "" b = true := by
  cases hbl : b.toList with
  | nil =>
    have : b.length = b.toList.length := rfl
    rw [this, hbl] at hb
    simp at hb
  | cons c cs =>
    rw [pyStrLt, hbl]
    rfl

/-- Invariant of the latest-version fold: the accumulator either survives
untouched or is replaced by some listed version with a non-empty id; its id
only grows; no processed version's non-empty id is strictly above the
result; and a processed non-empty id forces the result non-empty. -/
theorem versionMax_foldl_spec (versions : List ToolVersion)
    (acc : Option ToolVersion × String) :
    (((versions.foldl versionMaxStep acc).1 = acc.1
        ∧ (versions.foldl versionMaxStep acc).2 = acc.2)
      ∨ ∃ v ∈ versions, (versions.foldl versionMaxStep acc).1 = some v
          ∧ (versions.foldl versionMaxStep acc).2 = v.id.getD ""
          ∧ 0 < (v.id.getD "").length)
    ∧ (pyStrLt acc.2 (versions.foldl versionMaxStep acc).2 = true
        ∨ (versions.foldl versionMaxStep acc).2 = acc.2)
    ∧ (∀ w ∈ versions, 0 < (w.id.getD "").length →
        pyStrLt (versions.foldl versionMaxStep acc).2 (w.id.getD "")
          = false)
    ∧ (∀ w ∈ versions, 0 < (w.id.getD "").length →
        0 < ((versions.foldl versionMaxStep acc).2).length) := by
  induction versions generalizing acc with
  | nil => simp
  | cons v rest ih =>
    have hfold : (v :: rest).foldl versionMaxStep acc
        = rest.foldl versionMaxStep (versionMaxStep acc v) := rfl
    obtain ⟨ih1, ih2, ih3, ih4⟩ := ih (versionMaxStep acc v)
    by_cases hcond : 0 < (v.id.getD "").length
        ∧ pyStrLt acc.2 (v.id.getD "") = true
    · have hstep : versionMaxStep acc v = (some v, v.id.getD "") := by
        simp [versionMaxStep, hcond.1, hcond.2]
      rw [hstep] at ih1 ih2 ih3 ih4
      have hres2 : pyStrLt (v.id.getD "")
            ((v :: rest).foldl versionMaxStep acc).2 = true
          ∨ ((v :: rest).foldl versionMaxStep acc).2 = v.id.getD "" := by
        rw [hfold, hstep]; exact ih2
      refine ⟨?_, ?_, ?_, ?_⟩
      · rw [hfold, hstep]
        rcases ih1 with ⟨h1, h2⟩ | ⟨w, hw, h1, h2, h3⟩
        · exact Or.inr ⟨v, List.mem_cons_self .., h1, h2, hcond.1⟩
        · exact Or.inr ⟨w, List.mem_cons_of_mem _ hw, h1, h2, h3⟩
      · rw [hfold, hstep]
        rcases ih2 with hlt | heq
        · exact Or.inl (pyStrLt_trans hcond.2 hlt)
        · rw [heq]; exact Or.inl hcond.2
      · intro w hw hwlen
        rcases List.mem_cons.mp hw with hv | hr
        · subst hv
          rcases hres2 with hlt | heq
          · by_contra hc
            simp only [Bool.not_eq_false] at hc
            have := pyStrLt_trans hlt hc
            rw [pyStrLt_irrefl] at this
            exact absurd this (by simp)
          · rw [heq, pyStrLt_irrefl]
        · rw [hfold, hstep]; exact ih3 w hr hwlen
      · intro w hw hwlen
        rcases hres2 with hlt | heq
        · exact pyStrLt_pos hlt
        · rw [heq]; exact hcond.1
    · have hstep : versionMaxStep acc v = acc := by
        rcases Decidable.not_and_iff_or_not.mp hcond with hlen | hlt
        · have h0 : (v.id.getD "").length = 0 := by omega
          simp [versionMaxStep, h0]
        · simp only [versionMaxStep]
          rw [if_neg]
          rintro ⟨-, hc⟩
          exact absurd hc (by simpa using hlt)
      rw [hstep] at ih1 ih2 ih3 ih4
      have haccne : 0 < (v.id.getD "").length → 0 < acc.2.length := by
        intro hvpos
        by_contra hz
        have : acc.2 = "" := (strLength_zero_iff _).mp (by omega)
        rcases Decidable.not_and_iff_or_not.mp hcond with hlen | hlt
        · exact hlen hvpos
        · rw [this] at hlt
          exact hlt (pyStrLt_empty_left hvpos)
      refine ⟨?_, ?_, ?_, ?_⟩
      · rw [hfold, hstep]
        rcases ih1 with ⟨h1, h2⟩ | ⟨w, hw, h1, h2, h3⟩
        · exact Or.inl ⟨h1, h2⟩
        · exact Or.inr ⟨w, List.mem_cons_of_mem _ hw, h1, h2, h3⟩
      · rw [hfold, hstep]; exact ih2
      · intro w hw hwlen
        rcases List.mem_cons.mp hw with hv | hr
        · subst hv
          have hacclt : pyStrLt acc.2 (w.id.getD "") = false := by
            rcases Decidable.not_and_iff_or_not.mp hcond with hlen | hlt
            · exact absurd hwlen hlen
            · simpa using hlt
          rw [hfold, hstep]
          rcases ih2 with hlt2 | heq2
          · by_contra hc
            simp only [Bool.not_eq_false] at hc
            have := pyStrLt_trans hlt2 hc
            rw [hacclt] at this
            exact absurd this (by simp)
          · rw [heq2, hacclt]
        · rw [hfold, hstep]; exact ih3 w hr hwlen
      · intro w hw hwlen
        rcases List.mem_cons.mp hw with hv | hr
        · subst hv
          rw [hfold, hstep]
          rcases ih2 with hlt2 | heq2
          · exact pyStrLt_pos hlt2
          · rw [heq2]; exact haccne hwlen
        · rw [hfold, hstep]; exact ih4 w hr hwlen

/-- C2: with a non-empty caller version id, registry resolution selects a
manifest version whose `id` string-equals it and fails fatally when none
matches; with an empty id it selects a listed version whose non-empty id is
lexicographically maximal (no listed id compares strictly above it under
the Python string order), and such a version exists whenever any listed id
is non-empty. -/
theorem selectToolVersion_spec :
    (∀ (version_id : String) (versions : List ToolVersion)
        (v : ToolVersion) (tvid : String), version_id ≠ "" →
      selectToolVersion version_id versions = .ok (v, tvid) →
      v ∈ versions ∧ v.id.getD "" = version_id ∧ tvid = version_id) ∧
    (∀ (version_id : String) (versions : List ToolVersion),
      version_id ≠ "" →
      (∀ v ∈ versions, v.id.getD "" ≠ version_id) →
      selectToolVersion version_id versions
        = .error (.versionNotFound version_id)) ∧
    (∀ (versions : List ToolVersion) (v : ToolVersion) (tvid : String),
      selectToolVersion "" versions = .ok (v, tvid) →
      v ∈ versions ∧ v.id.getD "" = tvid ∧ tvid ≠ "" ∧
      ∀ w ∈ versions, pyStrLt tvid (w.id.getD "") = false) ∧
    (∀ versions : List ToolVersion,
      (∃ v ∈ versions, v.id.getD "" ≠ "") →
      ∃ v tvid, selectToolVersion "" versions = .ok (v, tvid)) := by
  have hlenpos : ∀ s : String, s ≠ "" → 0 < s.length := by
    intro s hs
    rcases Nat.eq_zero_or_pos s.length with h0 | hpos
    · exact absurd ((strLength_zero_iff s).mp h0) hs
    · exact hpos
  refine ⟨?_, ?_, ?_, ?_⟩
  · intro version_id versions v tvid hne hok
    rw [selectToolVersion, if_pos (hlenpos _ hne)] at hok
    cases hf : versions.find? (fun v => v.id.getD "" = version_id) with
    | none => rw [hf] at hok; exact absurd hok (by simp)
    | some u =>
      rw [hf] at hok
      have huv : u = v ∧ version_id = tvid := by
        have := hok
        simp at this
        exact ⟨this.1, this.2⟩
      obtain ⟨rfl, rfl⟩ := huv
      have hp := List.find?_some hf
      simp at hp
      exact ⟨List.mem_of_find?_eq_some hf, hp, rfl⟩
  · intro version_id versions hne hall
    rw [selectToolVersion, if_pos (hlenpos _ hne)]
    have hf : versions.find? (fun v => v.id.getD "" = version_id) = none :=
      List.find?_eq_none.mpr (by intro x hx; simpa using hall x hx)
    rw [hf]
  · intro versions v tvid hok
    rw [selectToolVersion, if_neg (by simp)] at hok
    simp only [] at hok
    obtain ⟨inv1, inv2, inv3, inv4⟩ :=
      versionMax_foldl_spec versions ((none : Option ToolVersion), "")
    cases hc : (versions.foldl versionMaxStep
        ((none : Option ToolVersion), "")).1 with
    | none => rw [hc] at hok; exact absurd hok (by simp)
    | some u =>
      rw [hc] at hok
      have huv : u = v ∧ (versions.foldl versionMaxStep
          ((none : Option ToolVersion), "")).2 = tvid := by
        have := hok
        simp at this
        exact ⟨this.1, this.2⟩
      obtain ⟨rfl, hres⟩ := huv
      rcases inv1 with ⟨h1, -⟩ | ⟨w, hw, h1, h2, h3⟩
      · rw [hc] at h1; exact absurd h1 (by simp)
      · rw [hc] at h1
        have hwv : u = w := by simpa using h1
        subst hwv
        rw [hres] at h2
        refine ⟨hw, h2.symm, ?_, ?_⟩
        · rw [← h2] at h3
          intro he
          rw [he] at h3
          simp at h3
        · intro w' hw'
          by_cases hwlen : 0 < (w'.id.getD "").length
          · have := inv3 w' hw' hwlen
            rwa [hres] at this
          · have : w'.id.getD "" = "" :=
              (strLength_zero_iff _).mp (by omega)
            rw [this]
            exact pyStrLt_empty_right tvid
  · intro versions ⟨v, hv, hvne⟩
    obtain ⟨inv1, inv2, inv3, inv4⟩ :=
      versionMax_foldl_spec versions ((none : Option ToolVersion), "")
    have hpos := inv4 v hv (hlenpos _ hvne)
    rcases inv1 with ⟨-, h2⟩ | ⟨w, hw, h1, h2, h3⟩
    · rw [h2] at hpos; simp at hpos
    · refine ⟨w, (versions.foldl versionMaxStep
        ((none : Option ToolVersion), "")).2, ?_⟩
      rw [selectToolVersion, if_neg (by simp)]
      simp only []
      rw [h1]

/-- Witness for C2, third part: with an empty caller version the entry with
id `"2.0"` beats `"10.0"` under the Python lexicographic order. -/
theorem selectToolVersion_spec_witness :
    (⟨some "2.0", none⟩ : ToolVersion) ∈
      ([⟨some "2.0", none⟩, ⟨some "10.0", none⟩, ⟨none, none⟩]
        : List ToolVersion) ∧
    (⟨some "2.0", none⟩ : ToolVersion).id.getD "" = "2.0" ∧
    ("2.0" : String) ≠ "" ∧
    ∀ w ∈ ([⟨some "2.0", none⟩, ⟨some "10.0", none⟩, ⟨none, none⟩]
        : List ToolVersion), pyStrLt "2.0" (w.id.getD "") = false :=
  selectToolVersion_spec.2.2.1
    [⟨some "2.0", none⟩, ⟨some "10.0", none⟩, ⟨none, none⟩]
    ⟨some "2.0", none⟩ "2.0" rfl

/-- C6: when the caller's descriptor type is set but not among the
recognized descriptors, the TRS resolution tail raises a fatal
descriptor-type error (or the uncaught `KeyError` of the re-index) and no
packaging-archive download event occurs; conversely any run that does emit
the download event passed both descriptor-type checks. -/
theorem trs_descriptor_check_before_fetch :
    (∀ (recognizedKeys : List String) (dt version_id trs_tool_url : String)
        (versions : List ToolVersion),
      dt ∉ recognizedKeys →
      (getWorkflowRepoFromTRSTail recognizedKeys (some dt) version_id
          trs_tool_url versions).1 = [] ∧
      ∀ tv tvid, selectToolVersion version_id versions = .ok (tv, tvid) →
        ∃ e, (getWorkflowRepoFromTRSTail recognizedKeys (some dt) version_id
            trs_tool_url versions).2 = .error e ∧
          (e = .descriptorTypeKeyError ∨ e = .descriptorTypeNotAvailable dt
            ∨ e = .descriptorTypeNotAcknowledged dt)) ∧
    (∀ (recognizedKeys : List String) (sdt : Option String)
        (version_id trs_tool_url : String) (versions : List ToolVersion),
      (getWorkflowRepoFromTRSTail recognizedKeys sdt version_id
          trs_tool_url versions).1 ≠ [] →
      ∃ tv tvid chosen,
        selectToolVersion version_id versions = .ok (tv, tvid) ∧
        chooseDescriptorType recognizedKeys sdt tv = .ok chosen ∧
        (getWorkflowRepoFromTRSTail recognizedKeys sdt version_id
            trs_tool_url versions).2 = .ok chosen) := by
  constructor
  · intro recognizedKeys dt version_id trs_tool_url versions hdt
    have hchoose : ∀ tv : ToolVersion,
        ∃ e, chooseDescriptorType recognizedKeys (some dt) tv = .error e ∧
          (e = .descriptorTypeKeyError ∨ e = .descriptorTypeNotAvailable dt
            ∨ e = .descriptorTypeNotAcknowledged dt) := by
      intro tv
      cases htd : tv.descriptor_type with
      | none =>
        exact ⟨.descriptorTypeKeyError, by simp [chooseDescriptorType, htd],
          Or.inl rfl⟩
      | some listed =>
        by_cases hin : listed.contains dt
        · refine ⟨.descriptorTypeNotAcknowledged dt, ?_, Or.inr (Or.inr rfl)⟩
          simp only [chooseDescriptorType, htd]
          rw [if_neg (by simpa using hin), if_pos (by simpa using hdt)]
        · refine ⟨.descriptorTypeNotAvailable dt, ?_, Or.inr (Or.inl rfl)⟩
          simp only [chooseDescriptorType, htd]
          rw [if_pos (by simpa using hin)]
    cases hsel : selectToolVersion version_id versions with
    | error e =>
      refine ⟨by simp [getWorkflowRepoFromTRSTail, hsel], ?_⟩
      intro tv tvid hok
      exact absurd hok (by simp)
    | ok p =>
      obtain ⟨tv, tvid⟩ := p
      obtain ⟨e, he, hcase⟩ := hchoose tv
      refine ⟨by simp [getWorkflowRepoFromTRSTail, hsel, he], ?_⟩
      intro tv' tvid' hok
      have : tv = tv' ∧ tvid = tvid' := by
        have := hok; simp at this; exact ⟨this.1, this.2⟩
      obtain ⟨rfl, rfl⟩ := this
      exact ⟨e, by simp [getWorkflowRepoFromTRSTail, hsel, he], hcase⟩
  · intro recognizedKeys sdt version_id trs_tool_url versions hne
    cases hsel : selectToolVersion version_id versions with
    | error e =>
      rw [getWorkflowRepoFromTRSTail, hsel] at hne
      exact absurd rfl hne
    | ok p =>
      obtain ⟨tv, tvid⟩ := p
      cases hch : chooseDescriptorType recognizedKeys sdt tv with
      | error e =>
        simp only [getWorkflowRepoFromTRSTail, hsel, hch] at hne
        exact absurd rfl hne
      | ok chosen =>
        exact ⟨tv, tvid, chosen, rfl,
          hch, by simp [getWorkflowRepoFromTRSTail, hsel, hch]⟩

/-- Witness for C6 at descriptor type `"WDL"` against recognized
descriptors `["CWL", "NFL"]`. -/
theorem trs_descriptor_check_before_fetch_witness :
    ("WDL" ∉ (["CWL", "NFL"] : List String)) ∧
    (getWorkflowRepoFromTRSTail ["CWL", "NFL"] (some "WDL") "1" "trs/x"
        [⟨some "1", some ["WDL"]⟩]).1 = [] ∧
    (getWorkflowRepoFromTRSTail ["CWL", "NFL"] (some "WDL") "1" "trs/x"
        [⟨some "1", some ["WDL"]⟩]).2
      = .error (.descriptorTypeNotAcknowledged "WDL") :=
  ⟨by decide,
   (trs_descriptor_check_before_fetch.1 ["CWL", "NFL"] "WDL" "1" "trs/x"
      [⟨some "1", some ["WDL"]⟩] (by decide)).1,
   by rfl⟩

/-- C8: reaching a parameter-tree mapping node whose `c-l-a-s-s` value is
present but is not `"File"` makes `fetchInputs` raise the fatal
unrecognized-input-class error mentioning that class, with no staging
side effect; the node is neither skipped nor treated as a nesting level. -/
theorem fetchInputs_unrecognized_class (h : String → String)
    (cfg : FetchConfig) (destdir cachedir : String) (st : FetchState)
    (key cls : String) (url : UrlField) (secCtx : Option String)
    (rest : List (String × PNode)) (keyPrefix : String) (lastInput : Nat)
    (hcls : cls ≠ "File") :
    fetchInputsList h cfg destdir cachedir st
      ((key, PNode.classed cls url secCtx) :: rest) keyPrefix lastInput
      = (st, .error (.unrecognizedInputClass cls)) := by
  simp [fetchInputsList, fetchInputsEntry, hcls]

/-- Witness for C8 at the class value `"Unknown"`. -/
theorem fetchInputs_unrecognized_class_witness :
    ("Unknown" : String) ≠ "File" ∧
    fetchInputsList (fun s => s) ⟨"cache", [], []⟩ "dest" "cache"
      ⟨[], []⟩ [("sample", PNode.classed "Unknown" (.one "https://x/a") none)]
      "" 0
      = (⟨[], []⟩, .error (.unrecognizedInputClass "Unknown")) :=
  ⟨by decide,
   fetchInputs_unrecognized_class _ _ _ _ _ _ _ _ _ _ _ _ (by decide)⟩

/-- Per-tag behaviour of the docker materialization loop body. -/
theorem materializeOneContainer_spec (env : DockerEnv) (tag : String)
    (c : Container) (hok : materializeOneContainer env tag = .ok c) :
    c.origTaggedName = tag ∧ c.taggedName = stripDockerProto tag ∧
    c.type = ContainerType.Docker ∧
    ∃ m rest, effectiveInspect env (stripDockerProto tag) = some (m :: rest)
      ∧ c.signature = m.Id ∧ c.fingerprint = m.RepoDigests.head? := by
  rw [materializeOneContainer] at hok
  cases heff : effectiveInspect env (stripDockerProto tag) with
  | none => rw [heff] at hok; exact absurd hok (by simp)
  | some ms =>
    rw [heff] at hok
    cases ms with
    | nil => exact absurd hok (by simp)
    | cons m rest =>
      have hc : c = ⟨tag, stripDockerProto tag, m.Id,
          (if m.RepoDigests.length > 0 then m.RepoDigests.head? else none),
          ContainerType.Docker⟩ := by
        have := hok; simp at this; exact this.symm
      subst hc
      refine ⟨rfl, rfl, rfl, m, rest, rfl, rfl, ?_⟩
      cases m.RepoDigests <;> simp

/-- C10: `materializeContainers` returns exactly one `Container` per input
tag, in input order, with `origTaggedName` the tag as given, `taggedName`
the tag with a leading `docker://` stripped, `signature` the `Id` of the
inspect manifest and `fingerprint` the first `RepoDigests` entry (`none`
when that list is empty). -/
theorem materializeContainers_spec (env : DockerEnv) (tags : List String)
    (cs : List Container) (hok : materializeContainers env tags = .ok cs) :
    cs.length = tags.length ∧
    ∀ (i : Nat) (h1 : i < tags.length) (h2 : i < cs.length),
      (cs.get ⟨i, h2⟩).origTaggedName = tags.get ⟨i, h1⟩ ∧
      (cs.get ⟨i, h2⟩).taggedName = stripDockerProto (tags.get ⟨i, h1⟩) ∧
      (cs.get ⟨i, h2⟩).type = ContainerType.Docker ∧
      ∃ m rest, effectiveInspect env (stripDockerProto (tags.get ⟨i, h1⟩))
          = some (m :: rest) ∧
        (cs.get ⟨i, h2⟩).signature = m.Id ∧
        (cs.get ⟨i, h2⟩).fingerprint = m.RepoDigests.head? := by
  induction tags generalizing cs with
  | nil =>
    have : cs = [] := by
      rw [materializeContainers, List.mapM_nil] at hok
      have := hok
      simp [pure, Except.pure] at this
      exact this
    subst this
    exact ⟨rfl, by intro i h1 _; exact absurd h1 (by simp)⟩
  | cons t ts ih =>
    rw [materializeContainers, List.mapM_cons] at hok
    cases h1 : materializeOneContainer env t with
    | error e =>
      rw [h1] at hok
      exact absurd hok (by simp [Bind.bind, Except.bind])
    | ok c =>
      rw [h1] at hok
      cases h2 : ts.mapM (materializeOneContainer env) with
      | error e =>
        rw [show List.mapM (materializeOneContainer env) ts
            = ts.mapM (materializeOneContainer env) from rfl, h2] at hok
        exact absurd hok (by simp [Bind.bind, Except.bind])
      | ok cs' =>
        rw [show List.mapM (materializeOneContainer env) ts
            = ts.mapM (materializeOneContainer env) from rfl, h2] at hok
        have hcs : cs = c :: cs' := by
          have := hok
          simp [Bind.bind, Except.bind, pure, Except.pure] at this
          exact this.symm
        subst hcs
        obtain ⟨ihlen, ihidx⟩ := ih cs' (by rw [materializeContainers]; exact h2)
        refine ⟨by simp [ihlen], ?_⟩
        intro i hi1 hi2
        cases i with
        | zero => simpa using materializeOneContainer_spec env t c h1
        | succ j =>
          have hj1 : j < ts.length := by simpa using hi1
          have hj2 : j < cs'.length := by simpa using hi2
          simpa using ihidx j hj1 hj2

/-- Witness for C10 on a single `docker://`-prefixed tag whose first
inspect succeeds. -/
theorem materializeContainers_spec_witness :
    ([⟨"docker://busybox:1", "busybox:1", "sha256:aa",
        some "busybox@sha256:bb", ContainerType.Docker⟩]
      : List Container).length = (["docker://busybox:1"]).length ∧
    ∀ (i : Nat) (h1 : i < (["docker://busybox:1"]).length)
      (h2 : i < ([⟨"docker://busybox:1", "busybox:1", "sha256:aa",
          some "busybox@sha256:bb", ContainerType.Docker⟩]
        : List Container).length),
      (([⟨"docker://busybox:1", "busybox:1", "sha256:aa",
          some "busybox@sha256:bb", ContainerType.Docker⟩]
        : List Container).get ⟨i, h2⟩).origTaggedName
          = (["docker://busybox:1"]).get ⟨i, h1⟩ ∧
      (([⟨"docker://busybox:1", "busybox:1", "sha256:aa",
          some "busybox@sha256:bb", ContainerType.Docker⟩]
        : List Container).get ⟨i, h2⟩).taggedName
          = stripDockerProto ((["docker://busybox:1"]).get ⟨i, h1⟩) ∧
      (([⟨"docker://busybox:1", "busybox:1", "sha256:aa",
          some "busybox@sha256:bb", ContainerType.Docker⟩]
        : List Container).get ⟨i, h2⟩).type = ContainerType.Docker ∧
      ∃ m rest, effectiveInspect
          ⟨fun t => if t = "busybox:1"
              then some [⟨"sha256:aa", ["busybox@sha256:bb"]⟩] else none,
            fun _ => false, fun _ => none⟩
          (stripDockerProto ((["docker://busybox:1"]).get ⟨i, h1⟩))
          = some (m :: rest) ∧
        (([⟨"docker://busybox:1", "busybox:1", "sha256:aa",
            some "busybox@sha256:bb", ContainerType.Docker⟩]
          : List Container).get ⟨i, h2⟩).signature = m.Id ∧
        (([⟨"docker://busybox:1", "busybox:1", "sha256:aa",
            some "busybox@sha256:bb", ContainerType.Docker⟩]
          : List Container).get ⟨i, h2⟩).fingerprint
            = m.RepoDigests.head? :=
  materializeContainers_spec
    ⟨fun t => if t = "busybox:1"
        then some [⟨"sha256:aa", ["busybox@sha256:bb"]⟩] else none,
      fun _ => false, fun _ => none⟩
    ["docker://busybox:1"]
    [⟨"docker://busybox:1", "busybox:1", "sha256:aa",
        some "busybox@sha256:bb", ContainerType.Docker⟩]
    (by rfl)

/-- C3 counterexample: a `github.com` URL whose path has fewer than the
owner and repo segments does not raise the cannot-guess-repository error as
the claim states; the source leaves `repoURL`, `repoTag` and `repoRelPath`
at `None` and returns normally. -/
theorem guessRepo_short_path_counterexample :
    guessRepoParams "https://github.com/onlyowner" = .ok (none, none, none)
    := by rfl

/-- C3 (amended): for a `github.com` URL whose path splits into segments
`owner/repo[...]`, the derived `repoURL` keeps the scheme and host with
path `owner/repo` suffixed by `.git` (not duplicated), `repoTag` is the
segment after a `blob` third segment (`None` otherwise) and `repoRelPath`
joins the remaining segments (`None` when there are none); a host other
than `github.com` raises the fatal cannot-guess-repository error; a
`github.com` path with fewer than the owner and repo segments returns
`None` for all three results without raising. -/
theorem guessRepo_github_pattern :
    (∀ (parsed : ParsedURL) (owner repo : String) (rest : List String),
      parsed.netloc = "github.com" →
      pySplit '/' parsed.path = "" :: owner :: repo :: rest →
      guessRepoFromParsed parsed = .ok
        (some (urlunparse parsed.scheme "github.com"
           ("/" ++ owner ++ "/"
             ++ (if strEndsWith repo ".git" then repo else repo ++ ".git"))),
         (match rest with | "blob" :: rev :: _ => some rev | _ => none),
         (match rest with
          | "blob" :: _ :: [] => none
          | "blob" :: _ :: rp => some (pyJoin "/" rp)
          | _ => none))) ∧
    (∀ parsed : ParsedURL, parsed.netloc ≠ "github.com" →
      guessRepoFromParsed parsed = .error .cannotGuessRepo) ∧
    (∀ parsed : ParsedURL, parsed.netloc = "github.com" →
      (pySplit '/' parsed.path).length < 3 →
      guessRepoFromParsed parsed = .ok (none, none, none)) := by
  refine ⟨?_, ?_, ?_⟩
  · intro parsed owner repo rest hnet hsplit
    unfold guessRepoFromParsed
    rw [hsplit, hnet]
    rcases rest with _ | ⟨r0, rest'⟩
    · simp [addGitSuffix, pyJoin, String.empty_append, String.append_assoc]
    · rcases rest' with _ | ⟨r1, rp⟩
      · by_cases hb : r0 = "blob" <;>
          simp [addGitSuffix, pyJoin, String.empty_append,
            String.append_assoc, hb, List.getD]
      · by_cases hb : r0 = "blob"
        · subst hb
          rcases rp with _ | ⟨p0, ps⟩ <;>
            simp [addGitSuffix, pyJoin, String.empty_append,
              String.append_assoc, List.getD]
        · simp [addGitSuffix, pyJoin, String.empty_append,
            String.append_assoc, hb, List.getD]
  · intro parsed hnet
    unfold guessRepoFromParsed
    simp [hnet]
  · intro parsed hnet hlen
    unfold guessRepoFromParsed
    rw [hnet]
    simp [hlen, Nat.not_le.mpr hlen]

theorem ensureDir_handlerCalls (st : FetchState) (d : String) :
    (ensureDir st d).handlerCalls = st.handlerCalls := by
  rw [ensureDir]; split <;> rfl

theorem mem_ensureDir_fs {p : String} (st : FetchState) (d : String) :
    p ∈ (ensureDir st d).fs ↔ p ∈ st.fs ∨ p = d := by
  rw [ensureDir]
  split
  · next hd =>
    constructor
    · exact Or.inl
    · rintro (hp | rfl)
      · exact hp
      · exact hd
  · next hd =>
    simp only [List.mem_cons]
    constructor
    · rintro (rfl | hp)
      · exact Or.inr rfl
      · exact Or.inl hp
    · rintro (hp | rfl)
      · exact Or.inr hp
      · exact Or.inl rfl

theorem ensureRepoDir_eq_of_mem {st : RepoState} {d : String}
    (hd : d ∈ st.fs) : ensureRepoDir st d = st :=
  if_pos hd

theorem mem_ensureRepoDir_self (st : RepoState) (d : String) :
    d ∈ (ensureRepoDir st d).fs := by
  rw [ensureRepoDir]
  split
  · next hd => exact hd
  · exact List.mem_cons_self ..

/-- A call whose cache slot (and the hashed parent directory) already
exist only runs `rev-parse` on the existing tree: the state gains the one
event and nothing else. -/
theorem doMaterializeRepo_hit (h : String → String)
    (cacheWorkflowDir : String) (env : GitEnv) (st : RepoState)
    (repoURL : String) (repoTag : Option String)
    (hdest : pathJoin cacheWorkflowDir (h repoURL) ∈ st.fs)
    (hslot : pathJoin (pathJoin cacheWorkflowDir (h repoURL))
      (h (repoTag.getD "")) ∈ st.fs) :
    doMaterializeRepo h cacheWorkflowDir env st repoURL repoTag
      = .ok (⟨st.fs, st.headAt,
              GitEvent.revparse (pathJoin (pathJoin cacheWorkflowDir
                (h repoURL)) (h (repoTag.getD ""))) :: st.events⟩,
             pathJoin (pathJoin cacheWorkflowDir (h repoURL))
               (h (repoTag.getD "")),
             (st.headAt.lookup (pathJoin (pathJoin cacheWorkflowDir
               (h repoURL)) (h (repoTag.getD "")))).getD "") := by
  unfold doMaterializeRepo
  simp only []
  rw [ensureRepoDir_eq_of_mem hdest]
  rw [if_pos hslot]

/-- C1: a successful `doMaterializeRepo` call leaves the cache slot in
place, so that repeating it with the same `(url, revision)` returns the
same directory and the same effective revision, and the only new git
subprocess event of the second call is the `rev-parse` of the existing
tree — no clone, checkout or submodule step runs, and the filesystem and
checked-out heads are untouched. -/
theorem doMaterializeRepo_idempotent (h : String → String)
    (cacheWorkflowDir : String) (env : GitEnv) (st : RepoState)
    (repoURL : String) (repoTag : Option String) (st₁ : RepoState)
    (dir₁ rev₁ : String)
    (hok : doMaterializeRepo h cacheWorkflowDir env st repoURL repoTag
      = .ok (st₁, dir₁, rev₁)) :
    doMaterializeRepo h cacheWorkflowDir env st₁ repoURL repoTag
      = .ok ({ st₁ with events := GitEvent.revparse dir₁ :: st₁.events },
             dir₁, rev₁) ∧
    dir₁ ∈ st₁.fs := by
  unfold doMaterializeRepo at hok
  simp only [] at hok
  by_cases hslot : pathJoin (pathJoin cacheWorkflowDir (h repoURL))
      (h (repoTag.getD ""))
      ∈ (ensureRepoDir st (pathJoin cacheWorkflowDir (h repoURL))).fs
  · rw [if_pos hslot] at hok
    simp only [] at hok
    have h3 := Except.ok.inj hok
    have hst := congrArg Prod.fst h3
    have hdir := congrArg (fun p => p.2.1) h3
    have hrev := congrArg (fun p => p.2.2) h3
    simp only [] at hst hdir hrev
    subst hst
    subst hdir
    subst hrev
    exact ⟨doMaterializeRepo_hit h cacheWorkflowDir env _ repoURL repoTag
      (mem_ensureRepoDir_self st _) hslot, hslot⟩
  · rw [if_neg hslot] at hok
    cases henv : env.cloneHead repoURL repoTag with
    | none =>
      rw [henv] at hok
      simp at hok
    | some commit =>
      rw [henv] at hok
      simp only [] at hok
      have h3 := Except.ok.inj hok
      have hst := congrArg Prod.fst h3
      have hdir := congrArg (fun p => p.2.1) h3
      have hrev := congrArg (fun p => p.2.2) h3
      simp only [] at hst hdir hrev
      subst hst
      subst hdir
      subst hrev
      exact ⟨doMaterializeRepo_hit h cacheWorkflowDir env _ repoURL repoTag
        (List.mem_cons_of_mem _ (mem_ensureRepoDir_self st _))
        (List.mem_cons_self ..), List.mem_cons_self ..⟩

/-- Witness for C1: a tagged clone into an empty cache, repeated. -/
theorem doMaterializeRepo_idempotent_witness :
    doMaterializeRepo (fun s => s) "wf-cache" ⟨fun _ _ => some "abc123"⟩
      ⟨["wf-cache/https://g/o/r.git/v1", "wf-cache/https://g/o/r.git"],
       [("wf-cache/https://g/o/r.git/v1", "abc123")],
       [GitEvent.revparse "wf-cache/https://g/o/r.git/v1",
        GitEvent.submoduleUpdate "wf-cache/https://g/o/r.git/v1",
        GitEvent.checkout "v1" "wf-cache/https://g/o/r.git/v1",
        GitEvent.clone "https://g/o/r.git" "wf-cache/https://g/o/r.git/v1"
          true]⟩
      "https://g/o/r.git" (some "v1")
      = .ok (⟨["wf-cache/https://g/o/r.git/v1", "wf-cache/https://g/o/r.git"],
              [("wf-cache/https://g/o/r.git/v1", "abc123")],
              GitEvent.revparse "wf-cache/https://g/o/r.git/v1"
                :: [GitEvent.revparse "wf-cache/https://g/o/r.git/v1",
                    GitEvent.submoduleUpdate "wf-cache/https://g/o/r.git/v1",
                    GitEvent.checkout "v1" "wf-cache/https://g/o/r.git/v1",
                    GitEvent.clone "https://g/o/r.git"
                      "wf-cache/https://g/o/r.git/v1" true]⟩,
             "wf-cache/https://g/o/r.git/v1", "abc123") ∧
    "wf-cache/https://g/o/r.git/v1"
      ∈ (["wf-cache/https://g/o/r.git/v1", "wf-cache/https://g/o/r.git"]
        : List String) :=
  doMaterializeRepo_idempotent (fun s => s) "wf-cache"
    ⟨fun _ _ => some "abc123"⟩ ⟨[], [], []⟩ "https://g/o/r.git" (some "v1")
    _ _ _ rfl

/-- Characterization of a successful `downloadInputFile` run: the returned
content names the cache path under the shared inputs directory keyed by the
digest of the raw URI, the original URI and the last path segment; the
cache file exists afterwards; the filesystem only grows, and only by the
destination directory and the cache file; the handler trace grows by at
most the one invocation. -/
theorem downloadInputFile_ok_char (h : String → String) (cfg : FetchConfig)
    (st : FetchState) (remote_file : String) (dest : Option String)
    (ctx : Option String) (st' : FetchState) (mc : MaterializedContent)
    (hok : downloadInputFile h cfg st remote_file dest ctx = (st', .ok mc)) :
    mc = ⟨pathJoin cfg.cacheWorkflowInputsDir (h remote_file), remote_file,
          (pySplit '/' (urlparse remote_file).path).getLastD ""⟩ ∧
    ((urlparse remote_file).scheme ≠ "" ∧ (urlparse remote_file).netloc ≠ ""
      ∧ (urlparse remote_file).path ≠ "") ∧
    mc.localFile ∈ st'.fs ∧
    (∀ p, p ∈ st.fs → p ∈ st'.fs) ∧
    (∀ p, p ∈ st'.fs → p ∈ st.fs ∨ p = dest.getD cfg.cacheWorkflowInputsDir
        ∨ p = pathJoin cfg.cacheWorkflowInputsDir (h remote_file)) ∧
    (st'.handlerCalls = st.handlerCalls
      ∨ st'.handlerCalls = (remote_file,
          pathJoin cfg.cacheWorkflowInputsDir (h remote_file))
            :: st.handlerCalls) := by
  rw [downloadInputFile] at hok
  by_cases hvalid : (urlparse remote_file).scheme ≠ ""
      ∧ (urlparse remote_file).netloc ≠ "" ∧ (urlparse remote_file).path ≠ ""
  · rw [if_neg (not_not_intro hvalid)] at hok
    simp only [] at hok
    by_cases hcache : pathJoin cfg.cacheWorkflowInputsDir (h remote_file)
        ∈ (ensureDir st (dest.getD cfg.cacheWorkflowInputsDir)).fs
    · rw [if_pos hcache] at hok
      have hst := (Prod.ext_iff.mp hok).1
      have hmc := (Except.ok.inj (Prod.ext_iff.mp hok).2).symm
      subst hst
      refine ⟨hmc, hvalid, ?_, ?_, ?_, Or.inl (ensureDir_handlerCalls _ _)⟩
      · rw [hmc]; exact hcache
      · intro p hp; exact (mem_ensureDir_fs st _).mpr (Or.inl hp)
      · intro p hp
        rcases (mem_ensureDir_fs st _).mp hp with hp | rfl
        · exact Or.inl hp
        · exact Or.inr (Or.inl rfl)
    · rw [if_neg hcache] at hok
      by_cases hscheme : ¬ cfg.schemeHandlers.contains
          (lowerStr (urlparse remote_file).scheme)
      · rw [if_pos hscheme] at hok
        exact absurd hok (by simp)
      · rw [if_neg hscheme] at hok
        by_cases hctx : ctx.isSome
            ∧ (cfg.creds_config.lookup (ctx.getD "")).isNone
        · rw [if_pos hctx] at hok
          exact absurd hok (by simp)
        · rw [if_neg hctx] at hok
          have hst := (Prod.ext_iff.mp hok).1
          have hmc := (Except.ok.inj (Prod.ext_iff.mp hok).2).symm
          subst hst
          refine ⟨hmc, hvalid, ?_, ?_, ?_,
            Or.inr (by simp [ensureDir_handlerCalls])⟩
          · rw [hmc]; simp
          · intro p hp
            simp only [List.mem_cons]
            exact Or.inr ((mem_ensureDir_fs st _).mpr (Or.inl hp))
          · intro p hp
            rcases List.mem_cons.mp hp with rfl | hp
            · exact Or.inr (Or.inr rfl)
            · rcases (mem_ensureDir_fs st _).mp hp with hp | rfl
              · exact Or.inl hp
              · exact Or.inr (Or.inl rfl)
  · rw [if_pos hvalid] at hok
    exact absurd ((Prod.ext_iff.mp hok).2) (by simp)

/-- A cache hit returns the cached path without touching the handler trace
(and without consulting the scheme registry or the credentials). -/
theorem downloadInputFile_hit (h : String → String) (cfg : FetchConfig)
    (st : FetchState) (remote_file : String) (dest : Option String)
    (ctx : Option String)
    (hvalid : (urlparse remote_file).scheme ≠ ""
      ∧ (urlparse remote_file).netloc ≠ ""
      ∧ (urlparse remote_file).path ≠ "")
    (hcache : pathJoin cfg.cacheWorkflowInputsDir (h remote_file) ∈ st.fs) :
    downloadInputFile h cfg st remote_file dest ctx
      = (ensureDir st (dest.getD cfg.cacheWorkflowInputsDir),
         .ok ⟨pathJoin cfg.cacheWorkflowInputsDir (h remote_file),
              remote_file,
              (pySplit '/' (urlparse remote_file).path).getLastD ""⟩) := by
  rw [downloadInputFile, if_neg (not_not_intro hvalid)]
  simp only []
  rw [if_pos ((mem_ensureDir_fs st _).mpr (Or.inl hcache))]

/-- Success of `downloadInputFile` under a valid URL, a registered scheme
handler and a resolvable (or absent) security context, with the
filesystem bracketing the staging proofs need. -/
theorem downloadInputFile_ok (h : String → String) (cfg : FetchConfig)
    (st : FetchState) (remote_file : String) (dest : Option String)
    (ctx : Option String)
    (hvalid : (urlparse remote_file).scheme ≠ ""
      ∧ (urlparse remote_file).netloc ≠ ""
      ∧ (urlparse remote_file).path ≠ "")
    (hscheme : cfg.schemeHandlers.contains
      (lowerStr (urlparse remote_file).scheme))
    (hctx : ctx = none
      ∨ (cfg.creds_config.lookup (ctx.getD "")).isSome) :
    ∃ st', downloadInputFile h cfg st remote_file dest ctx
        = (st', .ok ⟨pathJoin cfg.cacheWorkflowInputsDir (h remote_file),
            remote_file,
            (pySplit '/' (urlparse remote_file).path).getLastD ""⟩) ∧
      (∀ p, p ∈ st.fs → p ∈ st'.fs) ∧
      (∀ p, p ∈ st'.fs → p ∈ st.fs
        ∨ p = dest.getD cfg.cacheWorkflowInputsDir
        ∨ p = pathJoin cfg.cacheWorkflowInputsDir (h remote_file)) := by
  have hctxcond : ¬ ((ctx.isSome : Prop)
      ∧ ((cfg.creds_config.lookup (ctx.getD "")).isNone : Prop)) := by
    rintro ⟨hs, hn⟩
    rcases hctx with rfl | hsome
    · simp at hs
    · rw [Option.isNone_iff_eq_none] at hn
      rw [hn] at hsome
      simp at hsome
  rw [downloadInputFile, if_neg (not_not_intro hvalid)]
  simp only []
  by_cases hcache : pathJoin cfg.cacheWorkflowInputsDir (h remote_file)
      ∈ (ensureDir st (dest.getD cfg.cacheWorkflowInputsDir)).fs
  · rw [if_pos hcache]
    refine ⟨_, rfl, ?_, ?_⟩
    · intro p hp; exact (mem_ensureDir_fs st _).mpr (Or.inl hp)
    · intro p hp
      rcases (mem_ensureDir_fs st _).mp hp with hp | rfl
      · exact Or.inl hp
      · exact Or.inr (Or.inl rfl)
  · rw [if_neg hcache, if_neg (not_not_intro hscheme), if_neg hctxcond]
    refine ⟨_, rfl, ?_, ?_⟩
    · intro p hp
      exact List.mem_cons_of_mem _ ((mem_ensureDir_fs st _).mpr (Or.inl hp))
    · intro p hp
      rcases List.mem_cons.mp hp with rfl | hp
      · exact Or.inr (Or.inr rfl)
      · rcases (mem_ensureDir_fs st _).mp hp with hp | rfl
        · exact Or.inl hp
        · exact Or.inr (Or.inl rfl)

/-- The staged-files loop increments the `lastInput` counter exactly once
per fetched remote file. -/
theorem stageRemoteFiles_counter (h : String → String) (cfg : FetchConfig)
    (destdir cachedir : String) (ctx : Option String) :
    ∀ (urls : List String) (st : FetchState) (c : Nat) (st' : FetchState)
      (pairs : List MaterializedContent) (n : Nat),
      stageRemoteFiles h cfg destdir cachedir ctx st c urls
        = (st', .ok (pairs, n)) →
      n = c + urls.length := by
  intro urls
  induction urls with
  | nil =>
    intro st c st' pairs n hok
    simp only [stageRemoteFiles] at hok
    have h2 := congrArg Prod.snd (Except.ok.inj (Prod.ext_iff.mp hok).2)
    simp only [] at h2
    simp only [List.length_nil, Nat.add_zero]
    omega
  | cons u rest ih =>
    intro st c st' pairs n hok
    simp only [stageRemoteFiles] at hok
    split at hok
    · exact absurd ((Prod.ext_iff.mp hok).2) (by simp)
    · split_ifs at hok
      · exact absurd ((Prod.ext_iff.mp hok).2) (by simp)
      · split at hok
        · exact absurd ((Prod.ext_iff.mp hok).2) (by simp)
        · have h2 := Except.ok.inj (Prod.ext_iff.mp hok).2
          injection h2 with hp hn
          have hrec := ih _ _ _ _ _ (by assumption)
          simp only [List.length_cons]
          omega
      · split at hok
        · exact absurd ((Prod.ext_iff.mp hok).2) (by simp)
        · have h2 := Except.ok.inj (Prod.ext_iff.mp hok).2
          injection h2 with hp hn
          have hrec := ih _ _ _ _ _ (by assumption)
          simp only [List.length_cons]
          omega

mutual

/-- One walk entry increments the counter once per remote file it
fetches. -/
theorem fetchInputsEntry_counter (h : String → String) (cfg : FetchConfig)
    (destdir cachedir : String) (st : FetchState) (k : String)
    (node : PNode) (c : Nat) (st' : FetchState)
    (outs : List MaterializedInput) (n : Nat)
    (hok : fetchInputsEntry h cfg destdir cachedir st k node c
      = (st', .ok (outs, n))) :
    n = c + numFilesNode node := by
  cases node with
  | scalar v =>
    simp only [fetchInputsEntry] at hok
    have h2 := Except.ok.inj (Prod.ext_iff.mp hok).2
    injection h2 with ho hn
    simp only [numFilesNode]
    omega
  | plainList vs =>
    simp only [fetchInputsEntry] at hok
    have h2 := Except.ok.inj (Prod.ext_iff.mp hok).2
    injection h2 with ho hn
    simp only [numFilesNode]
    omega
  | classed cls url secCtx =>
    simp only [fetchInputsEntry] at hok
    split_ifs at hok with hcls
    · split at hok
      · exact absurd ((Prod.ext_iff.mp hok).2) (by simp)
      · next st1 rp n1 heq =>
        have h2 := Except.ok.inj (Prod.ext_iff.mp hok).2
        injection h2 with ho hn
        have hc := stageRemoteFiles_counter h cfg destdir cachedir secCtx
          _ _ _ _ _ _ heq
        cases url with
        | one u =>
          simp only [numFilesNode]
          simp at hc
          omega
        | many us =>
          simp only [numFilesNode]
          simp at hc
          omega
    · exact absurd ((Prod.ext_iff.mp hok).2) (by simp)
  | nested children =>
    simp only [fetchInputsEntry] at hok
    have := fetchInputsList_counter h cfg destdir cachedir st children
      (k ++ ".") c st' outs n hok
    simpa [numFilesNode] using this

/-- C5 support: the whole walk threads the counter left to right, adding
one per fetched file across all subtrees. -/
theorem fetchInputsList_counter (h : String → String) (cfg : FetchConfig)
    (destdir cachedir : String) (st : FetchState)
    (params : List (String × PNode)) (keyPrefix : String) (c : Nat)
    (st' : FetchState) (outs : List MaterializedInput) (n : Nat)
    (hok : fetchInputsList h cfg destdir cachedir st params keyPrefix c
      = (st', .ok (outs, n))) :
    n = c + numFilesList params := by
  cases params with
  | nil =>
    simp only [fetchInputsList] at hok
    have h2 := Except.ok.inj (Prod.ext_iff.mp hok).2
    injection h2 with ho hn
    simp only [numFilesList]
    omega
  | cons kv rest =>
    obtain ⟨key, node⟩ := kv
    simp only [fetchInputsList] at hok
    split at hok
    · exact absurd ((Prod.ext_iff.mp hok).2) (by simp)
    · next st1 outs1 n1 heq1 =>
      split at hok
      · exact absurd ((Prod.ext_iff.mp hok).2) (by simp)
      · next st2 outs2 n2 heq2 =>
        have h2 := Except.ok.inj (Prod.ext_iff.mp hok).2
        injection h2 with ho hn
        have e1 := fetchInputsEntry_counter h cfg destdir cachedir st
          (keyPrefix ++ key) node c st1 outs1 n1 heq1
        have e2 := fetchInputsList_counter h cfg destdir cachedir st1 rest
          keyPrefix n1 st2 outs2 n2 heq2
        simp only [numFilesList]
        omega

end

/-- C5 support: staging two remote files whose display names collide in a
destination free of both names: the first is linked under the natural
display name, the second under the counter-prefixed name
`(c+2)_name`, and the counter ends at `c+2`. -/
theorem stageRemoteFiles_collision (h : String → String) (cfg : FetchConfig)
    (destdir cachedir : String) (ctx : Option String) (st : FetchState)
    (c : Nat) (u₁ u₂ name : String)
    (hctx : ctx = none ∨ (cfg.creds_config.lookup (ctx.getD "")).isSome)
    (hv₁ : (urlparse u₁).scheme ≠ "" ∧ (urlparse u₁).netloc ≠ ""
      ∧ (urlparse u₁).path ≠ "")
    (hv₂ : (urlparse u₂).scheme ≠ "" ∧ (urlparse u₂).netloc ≠ ""
      ∧ (urlparse u₂).path ≠ "")
    (hs₁ : cfg.schemeHandlers.contains (lowerStr (urlparse u₁).scheme))
    (hs₂ : cfg.schemeHandlers.contains (lowerStr (urlparse u₂).scheme))
    (hn₁ : (pySplit '/' (urlparse u₁).path).getLastD "" = name)
    (hn₂ : (pySplit '/' (urlparse u₂).path).getLastD "" = name)
    (hp1 : pathJoin destdir name ∉ st.fs)
    (hp2 : pathJoin destdir name ≠ cachedir)
    (hp3 : pathJoin destdir name
      ≠ pathJoin cfg.cacheWorkflowInputsDir (h u₁))
    (hr1 : pathJoin destdir (toString (c + 2) ++ "_" ++ name) ∉ st.fs)
    (hr2 : pathJoin destdir (toString (c + 2) ++ "_" ++ name) ≠ cachedir)
    (hr3 : pathJoin destdir (toString (c + 2) ++ "_" ++ name)
      ≠ pathJoin cfg.cacheWorkflowInputsDir (h u₁))
    (hr4 : pathJoin destdir (toString (c + 2) ++ "_" ++ name)
      ≠ pathJoin cfg.cacheWorkflowInputsDir (h u₂))
    (hr5 : pathJoin destdir (toString (c + 2) ++ "_" ++ name)
      ≠ pathJoin destdir name) :
    ∃ st', stageRemoteFiles h cfg destdir cachedir ctx st c [u₁, u₂]
      = (st', .ok ([⟨pathJoin destdir name, u₁, name⟩,
          ⟨pathJoin destdir (toString (c + 2) ++ "_" ++ name), u₂, name⟩],
          c + 2)) := by
  obtain ⟨st₁, hdl₁, hgrow₁, hchar₁⟩ :=
    downloadInputFile_ok h cfg st u₁ (some cachedir) ctx hv₁ hs₁ hctx
  simp only [stageRemoteFiles]
  rw [hdl₁]
  simp only []
  rw [hn₁]
  have hnot1 : pathJoin destdir name ∉ st₁.fs := by
    intro hmem
    rcases hchar₁ _ hmem with hmem | heq | heq
    · exact hp1 hmem
    · exact hp2 (by simpa using heq)
    · exact hp3 heq
  rw [if_neg hnot1, if_neg hnot1]
  obtain ⟨st₃, hdl₂, hgrow₂, hchar₂⟩ :=
    downloadInputFile_ok h cfg ⟨pathJoin destdir name :: st₁.fs,
      st₁.handlerCalls⟩ u₂ (some cachedir) ctx hv₂ hs₂ hctx
  rw [hdl₂]
  simp only []
  rw [hn₂]
  have hyes : pathJoin destdir name ∈ st₃.fs :=
    hgrow₂ _ (List.mem_cons_self ..)
  rw [if_pos hyes]
  rw [show c + 1 + 1 = c + 2 from rfl]
  have hnotr : pathJoin destdir (toString (c + 2) ++ "_" ++ name)
      ∉ st₃.fs := by
    intro hmem
    rcases hchar₂ _ hmem with hmem | heq | heq
    · rcases List.mem_cons.mp hmem with heq | hmem
      · exact hr5 heq
      · rcases hchar₁ _ hmem with hmem | heq | heq
        · exact hr1 hmem
        · exact hr2 (by simpa using heq)
        · exact hr3 heq
    · exact hr2 (by simpa using heq)
    · exact hr4 heq
  rw [if_neg hnotr]
  exact ⟨_, rfl⟩

/-- C4: once a URI has been materialized (a successful `downloadInputFile`
call), a further call for the same URI performs no scheme-handler
invocation and returns the same cache path, the original URI and the
display name from the last URI path segment, whatever destination directory
or context name the second call passes. -/
theorem downloadInputFile_cached_no_refetch (h : String → String)
    (cfg : FetchConfig) (st : FetchState) (uri : String)
    (dest ctx : Option String) (st₁ : FetchState)
    (mc₁ : MaterializedContent)
    (hok : downloadInputFile h cfg st uri dest ctx = (st₁, .ok mc₁)) :
    ∀ dest₂ ctx₂ : Option String, ∃ st₂,
      downloadInputFile h cfg st₁ uri dest₂ ctx₂
        = (st₂, .ok ⟨mc₁.localFile, uri,
            (pySplit '/' (urlparse uri).path).getLastD ""⟩) ∧
      st₂.handlerCalls = st₁.handlerCalls ∧
      mc₁.localFile = pathJoin cfg.cacheWorkflowInputsDir (h uri) := by
  obtain ⟨hmc, hvalid, hmem, -, -, -⟩ :=
    downloadInputFile_ok_char h cfg st uri dest ctx st₁ mc₁ hok
  intro dest₂ ctx₂
  refine ⟨ensureDir st₁ (dest₂.getD cfg.cacheWorkflowInputsDir), ?_, ?_, ?_⟩
  · have := downloadInputFile_hit h cfg st₁ uri dest₂ ctx₂ hvalid
      (by rw [hmc] at hmem; exact hmem)
    rw [this, hmc]
  · exact ensureDir_handlerCalls _ _
  · rw [hmc]

/-- Witness for C4: a second fetch of an already-downloaded URI. -/
theorem downloadInputFile_cached_no_refetch_witness :
    ∃ st₂, downloadInputFile (fun s => s) ⟨"cache", ["https"], []⟩
        ⟨["cache/https://x/a", "d1"],
         [("https://x/a", "cache/https://x/a")]⟩ "https://x/a"
        (some "d2") none
      = (st₂, .ok ⟨"cache/https://x/a", "https://x/a", "a"⟩) ∧
      st₂.handlerCalls = [("https://x/a", "cache/https://x/a")] ∧
      ("cache/https://x/a" : String) = pathJoin "cache"
        ((fun s : String => s) "https://x/a") := by
  have := downloadInputFile_cached_no_refetch (fun s => s)
    ⟨"cache", ["https"], []⟩ ⟨[], []⟩ "https://x/a" (some "d1") none
    ⟨["cache/https://x/a", "d1"], [("https://x/a", "cache/https://x/a")]⟩
    ⟨"cache/https://x/a", "https://x/a", "a"⟩ rfl (some "d2") none
  simpa using this

/-- C9: the cached file `downloadInputFile` returns always lives in the
shared input cache directory under the digest of the raw URI; the
destination-directory argument never determines the returned path, so two
successful calls for the same URI with different destination directories
return the same local path. -/
theorem downloadInputFile_path_ignores_destdir :
    (∀ (h : String → String) (cfg : FetchConfig) (st : FetchState)
        (uri : String) (dest ctx : Option String) (st' : FetchState)
        (mc : MaterializedContent),
      downloadInputFile h cfg st uri dest ctx = (st', .ok mc) →
      mc.localFile = pathJoin cfg.cacheWorkflowInputsDir (h uri)) ∧
    (∀ (h : String → String) (cfg : FetchConfig) (st₁ st₂ : FetchState)
        (uri : String) (d₁ d₂ c₁ c₂ : Option String)
        (st₁' st₂' : FetchState) (mc₁ mc₂ : MaterializedContent),
      downloadInputFile h cfg st₁ uri d₁ c₁ = (st₁', .ok mc₁) →
      downloadInputFile h cfg st₂ uri d₂ c₂ = (st₂', .ok mc₂) →
      mc₁.localFile = mc₂.localFile) := by
  have base : ∀ (h : String → String) (cfg : FetchConfig) (st : FetchState)
      (uri : String) (dest ctx : Option String) (st' : FetchState)
      (mc : MaterializedContent),
      downloadInputFile h cfg st uri dest ctx = (st', .ok mc) →
      mc.localFile = pathJoin cfg.cacheWorkflowInputsDir (h uri) := by
    intro h cfg st uri dest ctx st' mc hok
    obtain ⟨hmc, -⟩ := downloadInputFile_ok_char h cfg st uri dest ctx st' mc
      hok
    rw [hmc]
  refine ⟨base, ?_⟩
  intro h cfg st₁ st₂ uri d₁ d₂ c₁ c₂ st₁' st₂' mc₁ mc₂ h1 h2
  rw [base h cfg st₁ uri d₁ c₁ st₁' mc₁ h1,
      base h cfg st₂ uri d₂ c₂ st₂' mc₂ h2]

/-- Witness for C9: destinations `d1` and `d2` yield the same cache path. -/
theorem downloadInputFile_path_ignores_destdir_witness :
    (⟨"cache/https://x/a", "https://x/a", "a"⟩
      : MaterializedContent).localFile
    = (⟨"cache/https://x/a", "https://x/a", "a"⟩
      : MaterializedContent).localFile :=
  downloadInputFile_path_ignores_destdir.2 (fun s => s)
    ⟨"cache", ["https"], []⟩ ⟨[], []⟩ ⟨[], []⟩ "https://x/a"
    (some "d1") (some "d2") none none
    ⟨["cache/https://x/a", "d1"], [("https://x/a", "cache/https://x/a")]⟩
    ⟨["cache/https://x/a", "d2"], [("https://x/a", "cache/https://x/a")]⟩
    ⟨"cache/https://x/a", "https://x/a", "a"⟩
    ⟨"cache/https://x/a", "https://x/a", "a"⟩ rfl rfl

/-- C7 counterexample: a File input carrying the security-context name
`"secret"`, absent from the credentials configuration, does not fail when
the URI is already cached — the context check sits inside the cache-miss
branch, so the node succeeds from cache. -/
theorem downloadInputFile_context_cached_counterexample :
    ((⟨"cache", ["https"], []⟩ : FetchConfig).creds_config.lookup "secret"
      = none) ∧
    downloadInputFile (fun s => s) ⟨"cache", ["https"], []⟩
      ⟨["cache/https://x/a", "cache"], []⟩ "https://x/a" none (some "secret")
      = (⟨["cache/https://x/a", "cache"], []⟩,
         .ok ⟨"cache/https://x/a", "https://x/a", "a"⟩) :=
  ⟨rfl, rfl⟩

/-- C7 (amended): when the URI is not already cached (and the scheme has a
registered handler), a File input whose security-context name is not a key
of the credentials configuration fails with the fatal no-security-context
error, before any scheme-handler invocation. -/
theorem downloadInputFile_no_context (h : String → String)
    (cfg : FetchConfig) (st : FetchState) (remote_file : String)
    (dest : Option String) (ctxName : String)
    (hvalid : (urlparse remote_file).scheme ≠ ""
      ∧ (urlparse remote_file).netloc ≠ ""
      ∧ (urlparse remote_file).path ≠ "")
    (hmiss : pathJoin cfg.cacheWorkflowInputsDir (h remote_file) ∉ st.fs)
    (hmiss2 : pathJoin cfg.cacheWorkflowInputsDir (h remote_file)
      ≠ dest.getD cfg.cacheWorkflowInputsDir)
    (hscheme : cfg.schemeHandlers.contains
      (lowerStr (urlparse remote_file).scheme))
    (hctx : cfg.creds_config.lookup ctxName = none) :
    downloadInputFile h cfg st remote_file dest (some ctxName)
      = (ensureDir st (dest.getD cfg.cacheWorkflowInputsDir),
         .error (.noSecurityContext ctxName remote_file)) ∧
    (ensureDir st (dest.getD cfg.cacheWorkflowInputsDir)).handlerCalls
      = st.handlerCalls := by
  refine ⟨?_, ensureDir_handlerCalls _ _⟩
  rw [downloadInputFile, if_neg (not_not_intro hvalid)]
  simp only []
  rw [if_neg (by
    intro hc
    rcases (mem_ensureDir_fs st _).mp hc with hc | hc
    · exact hmiss hc
    · exact hmiss2 hc)]
  rw [if_neg (not_not_intro hscheme)]
  rw [if_pos (by simp [hctx])]
  rfl

/-- Witness for C7 (amended) at an uncached URI with context `"secret"`. -/
theorem downloadInputFile_no_context_witness :
    downloadInputFile (fun s => s) ⟨"cache", ["https"], []⟩ ⟨[], []⟩
      "https://x/a" (some "d1") (some "secret")
      = (⟨["d1"], []⟩, .error (.noSecurityContext "secret" "https://x/a")) ∧
    (⟨["d1"], []⟩ : FetchState).handlerCalls = ([] : List (String × String))
    := by
  have := downloadInputFile_no_context (fun s => s) ⟨"cache", ["https"], []⟩
    ⟨[], []⟩ "https://x/a" (some "d1") "secret" (by decide) (by decide)
    (by decide) (by decide) rfl
  exact this

/-- Witness for C3 (amended) at a full `blob` URL. -/
theorem guessRepo_github_pattern_witness :
    guessRepoFromParsed ⟨"https", "github.com", "/o/r/blob/main/dir/wf.cwl"⟩
      = .ok (some "https://github.com/o/r.git", some "main",
             some "dir/wf.cwl") := by
  have := guessRepo_github_pattern.1
    ⟨"https", "github.com", "/o/r/blob/main/dir/wf.cwl"⟩ "o" "r"
    ["blob", "main", "dir", "wf.cwl"] rfl (by decide)
  simpa using this

/-- C5: the per-walk counter is incremented once per fetched file and
threaded through the whole recursive walk (the final counter of any
successful walk is the initial counter plus the number of remote files
across all subtrees, never reset); and a File node with two URLs of the
same basename, staged into a destination free of that name, links the
first under the natural display name and the second, finding that name
taken, under the current counter value prefixed with an underscore. -/
theorem fetchInputs_collision_renaming :
    (∀ (h : String → String) (cfg : FetchConfig)
        (destdir cachedir : String) (st : FetchState)
        (params : List (String × PNode)) (keyPrefix : String) (c : Nat)
        (st' : FetchState) (outs : List MaterializedInput) (n : Nat),
      fetchInputsList h cfg destdir cachedir st params keyPrefix c
        = (st', .ok (outs, n)) →
      n = c + numFilesList params) ∧
    (∀ (h : String → String) (cfg : FetchConfig)
        (destdir cachedir : String) (ctx : Option String)
        (st : FetchState) (c : Nat) (key keyPrefix u₁ u₂ name : String),
      (ctx = none ∨ (cfg.creds_config.lookup (ctx.getD "")).isSome) →
      ((urlparse u₁).scheme ≠ "" ∧ (urlparse u₁).netloc ≠ ""
        ∧ (urlparse u₁).path ≠ "") →
      ((urlparse u₂).scheme ≠ "" ∧ (urlparse u₂).netloc ≠ ""
        ∧ (urlparse u₂).path ≠ "") →
      cfg.schemeHandlers.contains (lowerStr (urlparse u₁).scheme) →
      cfg.schemeHandlers.contains (lowerStr (urlparse u₂).scheme) →
      (pySplit '/' (urlparse u₁).path).getLastD "" = name →
      (pySplit '/' (urlparse u₂).path).getLastD "" = name →
      pathJoin destdir name ∉ st.fs →
      pathJoin destdir name ≠ cachedir →
      pathJoin destdir name ≠ pathJoin cfg.cacheWorkflowInputsDir (h u₁) →
      pathJoin destdir (toString (c + 2) ++ "_" ++ name) ∉ st.fs →
      pathJoin destdir (toString (c + 2) ++ "_" ++ name) ≠ cachedir →
      pathJoin destdir (toString (c + 2) ++ "_" ++ name)
        ≠ pathJoin cfg.cacheWorkflowInputsDir (h u₁) →
      pathJoin destdir (toString (c + 2) ++ "_" ++ name)
        ≠ pathJoin cfg.cacheWorkflowInputsDir (h u₂) →
      pathJoin destdir (toString (c + 2) ++ "_" ++ name)
        ≠ pathJoin destdir name →
      ∃ st', fetchInputsList h cfg destdir cachedir st
          [(key, PNode.classed "File" (.many [u₁, u₂]) ctx)] keyPrefix c
        = (st', .ok ([⟨keyPrefix ++ key, .files
            [⟨pathJoin destdir name, u₁, name⟩,
             ⟨pathJoin destdir (toString (c + 2) ++ "_" ++ name), u₂,
               name⟩]⟩], c + 2))) := by
  constructor
  · intro h cfg destdir cachedir st params keyPrefix c st' outs n hok
    exact fetchInputsList_counter h cfg destdir cachedir st params keyPrefix
      c st' outs n hok
  · intro h cfg destdir cachedir ctx st c key keyPrefix u₁ u₂ name hctx hv₁
      hv₂ hs₁ hs₂ hn₁ hn₂ hp1 hp2 hp3 hr1 hr2 hr3 hr4 hr5
    obtain ⟨st', hstage⟩ := stageRemoteFiles_collision h cfg destdir
      cachedir ctx st c u₁ u₂ name hctx hv₁ hv₂ hs₁ hs₂ hn₁ hn₂ hp1 hp2 hp3
      hr1 hr2 hr3 hr4 hr5
    refine ⟨st', ?_⟩
    simp only [fetchInputsList, fetchInputsEntry, if_true]
    rw [hstage]
    rfl

/-- Witness for C5: two URLs with basename `data.txt` staged into a fresh
destination, plus the counter equation on a scalar-only walk. -/
theorem fetchInputs_collision_renaming_witness :
    ((5 : Nat) = 5 + numFilesList [("k", PNode.scalar "v")]) ∧
    ∃ st', fetchInputsList (fun s => s) ⟨"cache", ["https"], []⟩ "in"
        "cache" ⟨[], []⟩
        [("sample", PNode.classed "File"
          (.many ["https://x/data.txt", "https://y/data.txt"]) none)] "" 0
      = (st', .ok ([⟨"" ++ "sample", .files
          [⟨pathJoin "in" "data.txt", "https://x/data.txt", "data.txt"⟩,
           ⟨pathJoin "in" (toString (0 + 2) ++ "_" ++ "data.txt"),
             "https://y/data.txt", "data.txt"⟩]⟩], 0 + 2)) :=
  ⟨fetchInputs_collision_renaming.1 (fun s => s) ⟨"cache", ["https"], []⟩
      "in" "cache" ⟨[], []⟩ [("k", PNode.scalar "v")] "" 5 _ _ _ rfl,
   fetchInputs_collision_renaming.2 (fun s => s) ⟨"cache", ["https"], []⟩
      "in" "cache" none ⟨[], []⟩ 0 "sample" "" "https://x/data.txt"
      "https://y/data.txt" "data.txt" (Or.inl rfl) (by decide) (by decide)
      (by decide) (by decide) (by decide) (by decide) (by decide)
      (by decide) (by decide) (by decide) (by decide) (by decide)
      (by decide) (by decide)⟩

end WfExS
